import Mathlib

namespace HsluvC

noncomputable section

/-- A 3-component working value, as `struct Triplet_tag` in hsluv.c. -/
structure Triplet where
  a : ℝ
  b : ℝ
  c : ℝ

/-- Row 0 of the XYZ-to-RGB matrix `m` in hsluv.c. -/
def mRow0 : Triplet := ⟨3.2409699419045214, -1.5373831775700935, -0.49861076029300328⟩

/-- Row 1 of the XYZ-to-RGB matrix `m`. -/
def mRow1 : Triplet := ⟨-0.96924363628087983, 1.8759675015077207, 0.041555057407175613⟩

/-- Row 2 of the XYZ-to-RGB matrix `m`. -/
def mRow2 : Triplet := ⟨0.055630079696993609, -0.20397695888897657, 1.0569715142428786⟩

/-- The matrix `m` (for RGB), indexed by row. -/
def m (channel : Fin 3) : Triplet :=
  if channel.val = 0 then mRow0 else if channel.val = 1 then mRow1 else mRow2

/-- Row 0 of the RGB-to-XYZ matrix `m_inv`. -/
def mInvRow0 : Triplet := ⟨0.41239079926595948, 0.35758433938387796, 0.18048078840183429⟩

/-- Row 1 of the RGB-to-XYZ matrix `m_inv`. -/
def mInvRow1 : Triplet := ⟨0.21263900587151036, 0.71516867876775593, 0.072192315360733715⟩

/-- Row 2 of the RGB-to-XYZ matrix `m_inv`. -/
def mInvRow2 : Triplet := ⟨0.019330818715591851, 0.11919477979462599, 0.95053215224966058⟩

/-- The matrix `m_inv` (for XYZ), indexed by row. -/
def m_inv (row : Fin 3) : Triplet :=
  if row.val = 0 then mInvRow0 else if row.val = 1 then mInvRow1 else mInvRow2

/-- The literal constant `pi` of hsluv.c (a rational approximation of π). -/
def pi : ℝ := 3.14159265358979323846

/-- `ref_u` of hsluv.c. -/
def ref_u : ℝ := 0.19783000664283681

/-- `ref_v` of hsluv.c. -/
def ref_v : ℝ := 0.468319994938791

/-- `kappa` of hsluv.c. -/
def kappa : ℝ := 903.2962962962963

/-- `epsilon` of hsluv.c. -/
def epsilon : ℝ := 0.0088564516790356308

/-- The C constant `FLT_MAX` = (2 - 2⁻²³)·2¹²⁷, used as the loop initializer. -/
def FLT_MAX : ℝ := 340282346638528859811704183484516925440

/-- A boundary line (slope `a`, intercept `b`), as `struct Bounds_tag` in hsluv.c. -/
structure Bounds where
  a : ℝ
  b : ℝ

/-- The `sub2` value computed at the top of `get_bounds` (`sub1` inlined).
`pow(l + 16.0, 3.0)` is the real cube of `l + 16`. -/
def sub2 (l : ℝ) : ℝ :=
  if (l + 16) ^ (3 : ℕ) / 1560896 > epsilon then (l + 16) ^ (3 : ℕ) / 1560896 else l / kappa

/-- `get_bounds` of hsluv.c: the boundary segment stored at index
`channel * 2 + t` (so `channel = i / 2` and `t = i % 2`). -/
def get_bounds (l : ℝ) (i : Fin 6) : Bounds :=
  let m1 := (m ⟨i.val / 2, by omega⟩).a
  let m2 := (m ⟨i.val / 2, by omega⟩).b
  let m3 := (m ⟨i.val / 2, by omega⟩).c
  let t : ℝ := (i.val % 2 : ℕ)
  let top1 := (284517 * m1 - 94839 * m3) * sub2 l
  let top2 := (838422 * m3 + 769860 * m2 + 731718 * m1) * l * sub2 l - 769860 * t * l
  let bottom := (632260 * m3 - 126452 * m2) * sub2 l + 126452 * t
  ⟨top1 / bottom, top2 / bottom⟩

/-- `intersect_line_line` of hsluv.c. -/
def intersect_line_line (line1 line2 : Bounds) : ℝ :=
  (line1.b - line2.b) / (line2.a - line1.a)

/-- `dist_from_pole` of hsluv.c. -/
def dist_from_pole (x y : ℝ) : ℝ :=
  Real.sqrt (x * x + y * y)

/-- `ray_length_until_intersect` of hsluv.c. -/
def ray_length_until_intersect (theta : ℝ) (line : Bounds) : ℝ :=
  line.b / (Real.sin theta - line.a * Real.cos theta)

/-- The `distance` computed for segment `i` in the loop body of
`max_safe_chroma_for_l` (hsluv.c lines 117-123). -/
def safe_distance (l : ℝ) (i : Fin 6) : ℝ :=
  let m1 := (get_bounds l i).a
  let b1 := (get_bounds l i).b
  let line2 : Bounds := ⟨-1 / m1, 0⟩
  let x := intersect_line_line (get_bounds l i) line2
  dist_from_pole x (b1 + x * m1)

/-- `max_safe_chroma_for_l` of hsluv.c: fold of the guarded running minimum,
initialized to `FLT_MAX`, over the six boundary segments. -/
def max_safe_chroma_for_l (l : ℝ) : ℝ :=
  (List.finRange 6).foldl
    (fun min_len i =>
      if 0 ≤ safe_distance l i ∧ safe_distance l i < min_len then safe_distance l i else min_len)
    FLT_MAX

/-- `max_chroma_for_lh` of hsluv.c. -/
def max_chroma_for_lh (l h : ℝ) : ℝ :=
  let hrad := h / 360 * pi * 2
  (List.finRange 6).foldl
    (fun min_len i =>
      if 0 ≤ ray_length_until_intersect hrad (get_bounds l i) ∧
          ray_length_until_intersect hrad (get_bounds l i) < min_len then
        ray_length_until_intersect hrad (get_bounds l i)
      else min_len)
    FLT_MAX

/-- `dot_product` of hsluv.c. -/
def dot_product (t1 t2 : Triplet) : ℝ :=
  t1.a * t2.a + t1.b * t2.b + t1.c * t2.c

/-- `from_linear` of hsluv.c (`pow(c, 1.0/2.4)` as real rpow). -/
def from_linear (c : ℝ) : ℝ :=
  if c ≤ 0.0031308 then 12.92 * c else 1.055 * c ^ ((1 : ℝ) / 2.4) - 0.055

/-- `to_linear` of hsluv.c. -/
def to_linear (c : ℝ) : ℝ :=
  if c > 0.04045 then ((c + 0.055) / (1 + 0.055)) ^ ((2.4 : ℝ)) else c / 12.92

/-- `xyz2rgb` of hsluv.c. -/
def xyz2rgb (t : Triplet) : Triplet :=
  ⟨from_linear (dot_product (m 0) t),
   from_linear (dot_product (m 1) t),
   from_linear (dot_product (m 2) t)⟩

/-- `rgb2xyz` of hsluv.c. -/
def rgb2xyz (t : Triplet) : Triplet :=
  let rgbl : Triplet := ⟨to_linear t.a, to_linear t.b, to_linear t.c⟩
  ⟨dot_product (m_inv 0) rgbl, dot_product (m_inv 1) rgbl, dot_product (m_inv 2) rgbl⟩

/-- `y2l` of hsluv.c (`powl(y, 1.0/3.0)` as real rpow). -/
def y2l (y : ℝ) : ℝ :=
  if y ≤ epsilon then y * kappa else 116 * y ^ ((1 : ℝ) / 3) - 16

/-- `l2y` of hsluv.c (`powl(x, 3.0)` is the real cube). -/
def l2y (l : ℝ) : ℝ :=
  if l ≤ 8 then l / kappa else ((l + 16) / 116) ^ (3 : ℕ)

/-- `xyz2luv` of hsluv.c. -/
def xyz2luv (t : Triplet) : Triplet :=
  let var_u := (4 * t.a) / (t.a + 15 * t.b + 3 * t.c)
  let var_v := (9 * t.b) / (t.a + 15 * t.b + 3 * t.c)
  let l := y2l t.b
  let u := 13 * l * (var_u - ref_u)
  let v := 13 * l * (var_v - ref_v)
  if l < 0.00000001 then ⟨l, 0, 0⟩ else ⟨l, u, v⟩

/-- `luv2xyz` of hsluv.c. -/
def luv2xyz (t : Triplet) : Triplet :=
  if t.a ≤ 0.00000001 then ⟨0, 0, 0⟩
  else
    let var_u := t.b / (13 * t.a) + ref_u
    let var_v := t.c / (13 * t.a) + ref_v
    let y := l2y t.a
    let x := -(9 * y * var_u) / ((var_u - 4) * var_v - var_u * var_v)
    let z := (9 * y - 15 * var_v * y - var_v * x) / (3 * var_v)
    ⟨x, y, z⟩

/-- C `atan2(y, x)`, modelled as the argument of the complex number `x + y·i`
(in `(-π, π]`, with `atan2 0 0 = 0`, matching the piecewise arctan definition). -/
def atan2 (y x : ℝ) : ℝ :=
  Complex.arg ⟨x, y⟩

/-- `luv2lch` of hsluv.c (the single-precision `sqrtf`/`powf` calls are
modelled at real precision). -/
def luv2lch (t : Triplet) : Triplet :=
  let c := Real.sqrt (t.b ^ (2 : ℕ) + t.c ^ (2 : ℕ))
  let h0 := atan2 t.c t.b * (360 / 2 / pi)
  if c < 0.00000001 then ⟨t.a, c, 0⟩
  else ⟨t.a, c, if h0 < 0 then h0 + 360 else h0⟩

/-- `lch2luv` of hsluv.c (`cosf`/`sinf` modelled at real precision). -/
def lch2luv (t : Triplet) : Triplet :=
  let hrad := t.c * (2 * pi / 360)
  ⟨t.a, Real.cos hrad * t.b, Real.sin hrad * t.b⟩

/-- `hsluv2lch` of hsluv.c. -/
def hsluv2lch (t : Triplet) : Triplet :=
  let h := t.a
  let s := t.b
  let l := t.c
  let c := if l > 99.9999999 ∨ l < 0.00000001 then 0 else max_chroma_for_lh l h / 100 * s
  ⟨l, c, if s < 0.00000001 then 0 else h⟩

/-- `lch2hsluv` of hsluv.c. -/
def lch2hsluv (t : Triplet) : Triplet :=
  let l := t.a
  let c := t.b
  let h := t.c
  let s := if l > 99.9999999 ∨ l < 0.00000001 then 0 else c / max_chroma_for_lh l h * 100
  ⟨if c < 0.00000001 then 0 else h, s, l⟩

/-- `hpluv2lch` of hsluv.c. -/
def hpluv2lch (t : Triplet) : Triplet :=
  let h := t.a
  let s := t.b
  let l := t.c
  let c := if l > 99.9999999 ∨ l < 0.00000001 then 0 else max_safe_chroma_for_l l / 100 * s
  ⟨l, c, if s < 0.00000001 then 0 else h⟩

/-- `lch2hpluv` of hsluv.c. -/
def lch2hpluv (t : Triplet) : Triplet :=
  let l := t.a
  let c := t.b
  let h := t.c
  let s := if l > 99.9999999 ∨ l < 0.00000001 then 0 else c / max_safe_chroma_for_l l * 100
  ⟨if c < 0.00000001 then 0 else h, s, l⟩

/-- `hsluv2rgb` of hsluv.c: the result triple is `(r, g, b)`. -/
def hsluv2rgb (h s l : ℝ) : Triplet :=
  xyz2rgb (luv2xyz (lch2luv (hsluv2lch ⟨h, s, l⟩)))

/-- `hpluv2rgb` of hsluv.c. -/
def hpluv2rgb (h s l : ℝ) : Triplet :=
  xyz2rgb (luv2xyz (lch2luv (hpluv2lch ⟨h, s, l⟩)))

/-- `rgb2hsluv` of hsluv.c: the result triple is `(h, s, l)`. -/
def rgb2hsluv (r g b : ℝ) : Triplet :=
  lch2hsluv (luv2lch (xyz2luv (rgb2xyz ⟨r, g, b⟩)))

/-- `rgb2hpluv` of hsluv.c. -/
def rgb2hpluv (r g b : ℝ) : Triplet :=
  lch2hpluv (luv2lch (xyz2luv (rgb2xyz ⟨r, g, b⟩)))

end

/-! ### Generic lemmas about the guarded running-minimum loops

Both `max_safe_chroma_for_l` and `max_chroma_for_lh` fold
`if 0 ≤ v ∧ v < acc then v else acc` over the six segments, starting from
`FLT_MAX`.  The lemmas below characterize such folds. -/

theorem guard_foldl_le_init {α : Type} (f : α → ℝ) (xs : List α) :
    ∀ init : ℝ,
      xs.foldl (fun acc x => if 0 ≤ f x ∧ f x < acc then f x else acc) init ≤ init := by
  induction xs with
  | nil => intro init; exact le_rfl
  | cons y ys ih =>
    intro init
    refine le_trans (ih _) ?_
    by_cases hy : 0 ≤ f y ∧ f y < init
    · simp only [List.foldl_cons, if_pos hy]
      exact le_of_lt hy.2
    · simp only [List.foldl_cons, if_neg hy]
      exact le_rfl

theorem guard_foldl_le_of_mem {α : Type} (f : α → ℝ) (xs : List α) (x : α)
    (hx : x ∈ xs) (hf : 0 ≤ f x) :
    ∀ init : ℝ,
      xs.foldl (fun acc x => if 0 ≤ f x ∧ f x < acc then f x else acc) init ≤ f x := by
  induction xs with
  | nil => cases hx
  | cons y ys ih =>
    intro init
    rcases List.mem_cons.mp hx with h | h
    · subst h
      refine le_trans (guard_foldl_le_init f ys _) ?_
      by_cases hy : 0 ≤ f x ∧ f x < init
      · simp only [if_pos hy]; exact le_rfl
      · simp only [if_neg hy]
        rcases not_and_or.mp hy with h' | h'
        · exact absurd hf h'
        · exact le_of_not_lt h'
    · exact ih h _

theorem guard_foldl_eq_init_or_mem {α : Type} (f : α → ℝ) (xs : List α) :
    ∀ init : ℝ,
      xs.foldl (fun acc x => if 0 ≤ f x ∧ f x < acc then f x else acc) init = init ∨
        ∃ x ∈ xs,
          xs.foldl (fun acc x => if 0 ≤ f x ∧ f x < acc then f x else acc) init = f x ∧
            0 ≤ f x := by
  induction xs with
  | nil => intro init; exact Or.inl rfl
  | cons y ys ih =>
    intro init
    rcases ih (if 0 ≤ f y ∧ f y < init then f y else init) with h | ⟨x, hx, hfold, hnn⟩
    · by_cases hy : 0 ≤ f y ∧ f y < init
      · refine Or.inr ⟨y, List.mem_cons_self y ys, ?_, hy.1⟩
        simpa [if_pos hy] using h
      · refine Or.inl ?_
        simpa [if_neg hy] using h
    · exact Or.inr ⟨x, List.mem_cons_of_mem y hx, hfold, hnn⟩

theorem guard_foldl_eq_init_of_none {α : Type} (f : α → ℝ) (xs : List α) (init : ℝ)
    (h : ∀ x ∈ xs, ¬(0 ≤ f x ∧ f x < init)) :
    xs.foldl (fun acc x => if 0 ≤ f x ∧ f x < acc then f x else acc) init = init := by
  induction xs with
  | nil => rfl
  | cons y ys ih =>
    have hy := h y (List.mem_cons_self y ys)
    simp only [List.foldl_cons, if_neg hy]
    exact ih fun x hx => h x (List.mem_cons_of_mem y hx)

/-! ### Branch-selection helpers -/

theorem sub2_high (l : ℝ) (h : epsilon < (l + 16) ^ (3 : ℕ) / 1560896) :
    sub2 l = (l + 16) ^ (3 : ℕ) / 1560896 := by
  unfold sub2
  exact if_pos h

theorem sub2_low (l : ℝ) (h : ¬ epsilon < (l + 16) ^ (3 : ℕ) / 1560896) :
    sub2 l = l / kappa := by
  unfold sub2
  exact if_neg h

/-! ### The two chroma bounds as guarded minima -/

theorem max_chroma_foldl (l h : ℝ) :
    max_chroma_for_lh l h =
      (List.finRange 6).foldl
        (fun acc i =>
          if 0 ≤ ray_length_until_intersect (h / 360 * pi * 2) (get_bounds l i) ∧
              ray_length_until_intersect (h / 360 * pi * 2) (get_bounds l i) < acc then
            ray_length_until_intersect (h / 360 * pi * 2) (get_bounds l i)
          else acc)
        FLT_MAX := rfl

theorem max_safe_foldl (l : ℝ) :
    max_safe_chroma_for_l l =
      (List.finRange 6).foldl
        (fun acc i =>
          if 0 ≤ safe_distance l i ∧ safe_distance l i < acc then safe_distance l i else acc)
        FLT_MAX := rfl

/-- `max_chroma_for_lh l h` is the least of the non-negative per-segment ray
lengths, provided at least one of them does not exceed `FLT_MAX`. -/
theorem max_chroma_isLeast (l h : ℝ)
    (hx : ∃ i : Fin 6,
      0 ≤ ray_length_until_intersect (h / 360 * pi * 2) (get_bounds l i) ∧
        ray_length_until_intersect (h / 360 * pi * 2) (get_bounds l i) ≤ FLT_MAX) :
    IsLeast
      {v : ℝ | ∃ i : Fin 6,
        v = ray_length_until_intersect (h / 360 * pi * 2) (get_bounds l i) ∧ 0 ≤ v}
      (max_chroma_for_lh l h) := by
  obtain ⟨i₀, h₀, h₀le⟩ := hx
  rw [max_chroma_foldl]
  constructor
  · rcases guard_foldl_eq_init_or_mem
        (fun i => ray_length_until_intersect (h / 360 * pi * 2) (get_bounds l i))
        (List.finRange 6) FLT_MAX with h1 | ⟨x, _, hfold, hnn⟩
    · have hle := guard_foldl_le_of_mem
        (fun i => ray_length_until_intersect (h / 360 * pi * 2) (get_bounds l i))
        (List.finRange 6) i₀ (List.mem_finRange i₀) h₀ FLT_MAX
      rw [h1] at hle
      have heq := le_antisymm h₀le hle
      refine ⟨i₀, ?_, ?_⟩
      · rw [h1]; exact heq.symm
      · rw [h1, ← heq]; exact h₀
    · exact ⟨x, hfold, by rw [hfold]; exact hnn⟩
  · rintro v ⟨i, rfl, hnn⟩
    exact guard_foldl_le_of_mem
      (fun i => ray_length_until_intersect (h / 360 * pi * 2) (get_bounds l i))
      (List.finRange 6) i (List.mem_finRange i) hnn FLT_MAX

/-- The distance computed in the `max_safe_chroma_for_l` loop body equals the
distance from the origin to the closest point of the boundary line
`v = a·u + b`, namely `|b| / sqrt (1 + a²)`. -/
theorem safe_distance_closest_point (l : ℝ) (i : Fin 6) :
    safe_distance l i =
      |(get_bounds l i).b| / Real.sqrt (1 + (get_bounds l i).a ^ 2) := by
  unfold safe_distance intersect_line_line dist_from_pole
  set a := (get_bounds l i).a with ha
  set b := (get_bounds l i).b with hb
  simp only
  by_cases h0 : a = 0
  · rw [h0]
    norm_num [Real.sqrt_mul_self_eq_abs, Real.sqrt_one]
  · have h1 : (1 : ℝ) + a ^ 2 ≠ 0 := by positivity
    have h1' : -((1 : ℝ) + a ^ 2) ≠ 0 := neg_ne_zero.mpr h1
    have hden : -1 / a - a = -(1 + a ^ 2) / a := by
      rw [eq_div_iff h0, sub_mul, div_mul_cancel₀ _ h0]
      ring
    have hx : (b - (0:ℝ)) / (-1 / a - a) = -(a * b) / (1 + a ^ 2) := by
      rw [hden, div_div_eq_mul_div, div_eq_div_iff h1' h1]
      ring
    rw [hx]
    have h2 : -(a * b) / (1 + a ^ 2) * (-(a * b) / (1 + a ^ 2)) +
        (b + -(a * b) / (1 + a ^ 2) * a) * (b + -(a * b) / (1 + a ^ 2) * a) =
        b ^ 2 / (1 + a ^ 2) := by
      field_simp
      ring
    rw [h2, Real.sqrt_div (sq_nonneg b), Real.sqrt_sq_eq_abs]

/-- `max_safe_chroma_for_l l` is the least of the six closest-point distances,
provided at least one of them does not exceed `FLT_MAX`. -/
theorem max_safe_isLeast (l : ℝ)
    (hx : ∃ i : Fin 6, safe_distance l i ≤ FLT_MAX) :
    IsLeast {v : ℝ | ∃ i : Fin 6, v = safe_distance l i ∧ 0 ≤ v}
      (max_safe_chroma_for_l l) := by
  obtain ⟨i₀, h₀le⟩ := hx
  have h₀ : 0 ≤ safe_distance l i₀ := by
    unfold safe_distance
    exact Real.sqrt_nonneg _
  rw [max_safe_foldl]
  constructor
  · rcases guard_foldl_eq_init_or_mem (fun i => safe_distance l i)
        (List.finRange 6) FLT_MAX with h1 | ⟨x, _, hfold, hnn⟩
    · have hle := guard_foldl_le_of_mem (fun i => safe_distance l i)
        (List.finRange 6) i₀ (List.mem_finRange i₀) h₀ FLT_MAX
      rw [h1] at hle
      have heq := le_antisymm h₀le hle
      refine ⟨i₀, ?_, ?_⟩
      · rw [h1]; exact heq.symm
      · rw [h1, ← heq]; exact h₀
    · exact ⟨x, hfold, by rw [hfold]; exact hnn⟩
  · rintro v ⟨i, rfl, hnn⟩
    exact guard_foldl_le_of_mem (fun i => safe_distance l i)
      (List.finRange 6) i (List.mem_finRange i) hnn FLT_MAX

theorem one_le_sqrt_one_add_sq (a : ℝ) : 1 ≤ Real.sqrt (1 + a ^ 2) :=
  Real.le_sqrt_of_sq_le (by nlinarith [sq_nonneg a])

/-! ### Claim C4 -/

/-- C4: for every lightness `L` and hue `H` (degrees), `max_chroma_for_lh`
converts `H` to radians (`hrad = H/360·pi·2`) and returns the minimum, over
the six boundary segments of `get_bounds L`, of the values
`intercept / (sin hrad - slope · cos hrad)`, considering only the
non-negative such values (negative ones are ignored).  Stated as: the result
is the least element of the set of non-negative per-segment values, whenever
some non-negative value does not exceed the `FLT_MAX` initializer. -/
theorem max_chroma_min_nonneg_ray (l h : ℝ)
    (hx : ∃ i : Fin 6,
      0 ≤ (get_bounds l i).b /
          (Real.sin (h / 360 * pi * 2) - (get_bounds l i).a * Real.cos (h / 360 * pi * 2)) ∧
        (get_bounds l i).b /
            (Real.sin (h / 360 * pi * 2) - (get_bounds l i).a * Real.cos (h / 360 * pi * 2)) ≤
          FLT_MAX) :
    IsLeast
      {v : ℝ | ∃ i : Fin 6,
        v = (get_bounds l i).b /
            (Real.sin (h / 360 * pi * 2) - (get_bounds l i).a * Real.cos (h / 360 * pi * 2)) ∧
          0 ≤ v}
      (max_chroma_for_lh l h) :=
  max_chroma_isLeast l h hx

theorem max_chroma_min_nonneg_ray_witness :
    (0 ≤ (get_bounds 50 ⟨2, by norm_num⟩).b /
        (Real.sin ((0:ℝ) / 360 * pi * 2) -
          (get_bounds 50 ⟨2, by norm_num⟩).a * Real.cos ((0:ℝ) / 360 * pi * 2)) ∧
      (get_bounds 50 ⟨2, by norm_num⟩).b /
          (Real.sin ((0:ℝ) / 360 * pi * 2) -
            (get_bounds 50 ⟨2, by norm_num⟩).a * Real.cos ((0:ℝ) / 360 * pi * 2)) ≤
        FLT_MAX) ∧
      IsLeast
        {v : ℝ | ∃ i : Fin 6,
          v = (get_bounds 50 i).b /
              (Real.sin ((0:ℝ) / 360 * pi * 2) -
                (get_bounds 50 i).a * Real.cos ((0:ℝ) / 360 * pi * 2)) ∧
            0 ≤ v}
        (max_chroma_for_lh 50 0) := by
  have hs : sub2 (50:ℝ) = 287496 / 1560896 := by
    rw [sub2_high 50 (by norm_num [epsilon])]
    norm_num
  have hval : 0 ≤ (get_bounds 50 ⟨2, by norm_num⟩).b /
      (Real.sin ((0:ℝ) / 360 * pi * 2) -
        (get_bounds 50 ⟨2, by norm_num⟩).a * Real.cos ((0:ℝ) / 360 * pi * 2)) ∧
      (get_bounds 50 ⟨2, by norm_num⟩).b /
        (Real.sin ((0:ℝ) / 360 * pi * 2) -
          (get_bounds 50 ⟨2, by norm_num⟩).a * Real.cos ((0:ℝ) / 360 * pi * 2)) ≤
      FLT_MAX := by
    simp only [get_bounds, hs, m, mRow1]
    norm_num [FLT_MAX]
  exact ⟨hval, max_chroma_min_nonneg_ray 50 0 ⟨⟨2, by norm_num⟩, hval⟩⟩

/-! ### Claim C5 -/

/-- C5: for every lightness `L`, `max_safe_chroma_for_l` returns the minimum,
over the six boundary segments of `get_bounds L`, of the distance from the
origin to the closest point of the segment's line (the intersection with the
perpendicular through the origin), namely `|intercept| / sqrt (1 + slope²)`,
considering only the distances `≥ 0` — whenever some distance does not exceed
the `FLT_MAX` initializer. -/
theorem max_safe_min_closest_point (l : ℝ)
    (hx : ∃ i : Fin 6,
      |(get_bounds l i).b| / Real.sqrt (1 + (get_bounds l i).a ^ 2) ≤ FLT_MAX) :
    IsLeast
      {v : ℝ | ∃ i : Fin 6,
        v = |(get_bounds l i).b| / Real.sqrt (1 + (get_bounds l i).a ^ 2) ∧ 0 ≤ v}
      (max_safe_chroma_for_l l) := by
  have hx' : ∃ i : Fin 6, safe_distance l i ≤ FLT_MAX := by
    obtain ⟨i, hi⟩ := hx
    exact ⟨i, by rw [safe_distance_closest_point]; exact hi⟩
  have hsets : {v : ℝ | ∃ i : Fin 6, v = safe_distance l i ∧ 0 ≤ v} =
      {v : ℝ | ∃ i : Fin 6,
        v = |(get_bounds l i).b| / Real.sqrt (1 + (get_bounds l i).a ^ 2) ∧ 0 ≤ v} := by
    ext v
    simp only [Set.mem_setOf_eq, safe_distance_closest_point]
  rw [← hsets]
  exact max_safe_isLeast l hx'

theorem max_safe_min_closest_point_witness :
    (|(get_bounds 5 ⟨0, by norm_num⟩).b| /
        Real.sqrt (1 + (get_bounds 5 ⟨0, by norm_num⟩).a ^ 2) ≤ FLT_MAX) ∧
      IsLeast
        {v : ℝ | ∃ i : Fin 6,
          v = |(get_bounds 5 i).b| / Real.sqrt (1 + (get_bounds 5 i).a ^ 2) ∧ 0 ≤ v}
        (max_safe_chroma_for_l 5) := by
  have hs : sub2 (5:ℝ) = 5 / kappa := by
    exact sub2_low 5 (by norm_num [epsilon])
  have hval : |(get_bounds 5 ⟨0, by norm_num⟩).b| /
      Real.sqrt (1 + (get_bounds 5 ⟨0, by norm_num⟩).a ^ 2) ≤ FLT_MAX := by
    refine le_trans (div_le_self (abs_nonneg _) (one_le_sqrt_one_add_sq _)) ?_
    simp only [get_bounds, hs, m, mRow0]
    rw [abs_of_nonpos (by norm_num [kappa])]
    norm_num [FLT_MAX, kappa]
  exact ⟨hval, max_safe_min_closest_point 5 ⟨⟨0, by norm_num⟩, hval⟩⟩

/-! ### Claim C6 -/

theorem guard_foldl_of_nonneg {α : Type} (f : α → ℝ) (xs : List α)
    (hf : ∀ x ∈ xs, 0 ≤ f x) :
    ∀ init : ℝ,
      xs.foldl (fun acc x => if 0 ≤ f x ∧ f x < acc then f x else acc) init =
        xs.foldl (fun acc x => if f x < acc then f x else acc) init := by
  induction xs with
  | nil => intro init; rfl
  | cons y ys ih =>
    intro init
    simp only [List.foldl_cons]
    rw [if_congr (and_iff_right (hf y (List.mem_cons_self y ys))) rfl rfl]
    exact ih (fun x hx => hf x (List.mem_cons_of_mem y hx)) _

/-- C6 (counterexample to the claim as stated): no lightness input ever
produces a negative closest-point distance inside `max_safe_chroma_for_l` —
each distance is a square root, hence non-negative, so the `distance >= 0`
filter never discards a value. -/
theorem no_negative_safe_distance :
    ¬ ∃ (l : ℝ) (i : Fin 6), safe_distance l i < 0 := by
  rintro ⟨l, i, hneg⟩
  have : 0 ≤ safe_distance l i := Real.sqrt_nonneg _
  linarith

/-- C6 (amended): every closest-point distance computed inside
`max_safe_chroma_for_l` is non-negative (it is a square root), so the
`distance >= 0` filter is vacuous: the function computes the same value as a
plain running minimum over the six distances. -/
theorem safe_distance_filter_vacuous (l : ℝ) :
    (∀ i : Fin 6, 0 ≤ safe_distance l i) ∧
      max_safe_chroma_for_l l =
        (List.finRange 6).foldl
          (fun acc i => if safe_distance l i < acc then safe_distance l i else acc)
          FLT_MAX := by
  have hnn : ∀ i : Fin 6, 0 ≤ safe_distance l i := fun i => Real.sqrt_nonneg _
  refine ⟨hnn, ?_⟩
  rw [max_safe_foldl]
  exact guard_foldl_of_nonneg (fun i => safe_distance l i) (List.finRange 6)
    (fun i _ => hnn i) FLT_MAX

/-! ### Claim C7 -/

theorem luv2lch_hue_core (t : Triplet) :
    0 ≤ (luv2lch t).c ∧ (luv2lch t).c < 360 := by
  unfold luv2lch
  by_cases hc : Real.sqrt (t.b ^ (2:ℕ) + t.c ^ (2:ℕ)) < 0.00000001
  · rw [if_pos hc]
    norm_num
  · rw [if_neg hc]
    simp only
    have harg1 : atan2 t.c t.b ≤ Real.pi := Complex.arg_le_pi _
    have harg2 : -Real.pi < atan2 t.c t.b := Complex.neg_pi_lt_arg _
    have hpi2 : Real.pi < 2 * pi := lt_of_lt_of_le Real.pi_lt_d2 (by norm_num [pi])
    have hpipos : (0:ℝ) < pi := by norm_num [pi]
    have hfac : (0:ℝ) < 360 / 2 / pi := by positivity
    have hup2 : Real.pi * (360 / 2 / pi) < 360 := by
      have he : Real.pi * (360 / 2 / pi) = Real.pi * 180 / pi := by ring
      rw [he, div_lt_iff₀ hpipos]
      nlinarith
    have hup : atan2 t.c t.b * (360 / 2 / pi) < 360 :=
      lt_of_le_of_lt (mul_le_mul_of_nonneg_right harg1 hfac.le) hup2
    have hlow : -(360:ℝ) < atan2 t.c t.b * (360 / 2 / pi) := by
      have h1 := mul_lt_mul_of_pos_right harg2 hfac
      have h2 : -Real.pi * (360 / 2 / pi) = -(Real.pi * (360 / 2 / pi)) := by ring
      rw [h2] at h1
      linarith
    by_cases hneg : atan2 t.c t.b * (360 / 2 / pi) < 0
    · rw [if_pos hneg]
      constructor <;> linarith
    · rw [if_neg hneg]
      exact ⟨le_of_not_lt hneg, hup⟩

theorem lch2hsluv_hue_core (t : Triplet) :
    0 ≤ (lch2hsluv (luv2lch t)).a ∧ (lch2hsluv (luv2lch t)).a < 360 := by
  unfold lch2hsluv
  simp only
  by_cases hc : (luv2lch t).b < 0.00000001
  · rw [if_pos hc]
    norm_num
  · rw [if_neg hc]
    exact luv2lch_hue_core t

theorem lch2hpluv_hue_core (t : Triplet) :
    0 ≤ (lch2hpluv (luv2lch t)).a ∧ (lch2hpluv (luv2lch t)).a < 360 := by
  unfold lch2hpluv
  simp only
  by_cases hc : (luv2lch t).b < 0.00000001
  · rw [if_pos hc]
    norm_num
  · rw [if_neg hc]
    exact luv2lch_hue_core t

/-- C7: for every LUV input, the hue produced by `luv2lch` lies in
`[0, 360)`, and it is forced to `0` whenever the computed chroma
`sqrt (u² + v²)` is below `1e-8`; consequently the hue components returned
by `rgb2hsluv` and `rgb2hpluv` always lie in `[0, 360)`. -/
theorem luv2lch_hue_range (t : Triplet) (r g b : ℝ) :
    (0 ≤ (luv2lch t).c ∧ (luv2lch t).c < 360) ∧
      (Real.sqrt (t.b ^ (2:ℕ) + t.c ^ (2:ℕ)) < 0.00000001 → (luv2lch t).c = 0) ∧
      (0 ≤ (rgb2hsluv r g b).a ∧ (rgb2hsluv r g b).a < 360) ∧
      (0 ≤ (rgb2hpluv r g b).a ∧ (rgb2hpluv r g b).a < 360) := by
  refine ⟨luv2lch_hue_core t, ?_, lch2hsluv_hue_core _, lch2hpluv_hue_core _⟩
  intro hc
  unfold luv2lch
  rw [if_pos hc]

theorem luv2lch_hue_range_witness :
    Real.sqrt ((Triplet.mk 5 0 0).b ^ (2:ℕ) + (Triplet.mk 5 0 0).c ^ (2:ℕ)) < 0.00000001 ∧
      (luv2lch ⟨5, 0, 0⟩).c = 0 := by
  have hs : Real.sqrt ((Triplet.mk 5 0 0).b ^ (2:ℕ) + (Triplet.mk 5 0 0).c ^ (2:ℕ)) <
      0.00000001 := by
    norm_num [Real.sqrt_zero]
  exact ⟨hs, (luv2lch_hue_range ⟨5, 0, 0⟩ 0 0 0).2.1 hs⟩

/-! ### Claim C8 -/

theorem max_chroma_nonneg (l h : ℝ) : 0 ≤ max_chroma_for_lh l h := by
  rw [max_chroma_foldl]
  rcases guard_foldl_eq_init_or_mem
      (fun i => ray_length_until_intersect (h / 360 * pi * 2) (get_bounds l i))
      (List.finRange 6) FLT_MAX with h1 | ⟨x, _, hfold, hnn⟩
  · rw [h1]; norm_num [FLT_MAX]
  · rw [hfold]; exact hnn

theorem hsluv2lch_chroma_formula (h s l : ℝ)
    (hl₀ : 0.00000001 < l) (hl₁ : l < 99.9999999) :
    (hsluv2lch ⟨h, s, l⟩).b = max_chroma_for_lh l h / 100 * s := by
  unfold hsluv2lch
  simp only
  rw [if_neg (not_or.mpr ⟨not_lt.mpr hl₁.le, not_lt.mpr hl₀.le⟩)]

/-- C8: for every hue `h` and every lightness `l` strictly between the black
threshold `1e-8` and the white threshold `99.9999999`, the chroma produced by
`hsluv2lch` is monotonically increasing in the saturation (non-strictly in
general, strictly whenever the boundary chroma is positive), and at `s = 100`
it equals exactly the gamut-boundary chroma `max_chroma_for_lh l h`. -/
theorem hsluv2lch_chroma_monotone (h l s₁ s₂ : ℝ)
    (hl₀ : 0.00000001 < l) (hl₁ : l < 99.9999999)
    (_hs₀ : 0 ≤ s₁) (hs : s₁ ≤ s₂) (_hs₁ : s₂ ≤ 100) :
    ((hsluv2lch ⟨h, s₁, l⟩).b ≤ (hsluv2lch ⟨h, s₂, l⟩).b ∧
        (0 < max_chroma_for_lh l h → s₁ < s₂ →
          (hsluv2lch ⟨h, s₁, l⟩).b < (hsluv2lch ⟨h, s₂, l⟩).b)) ∧
      (hsluv2lch ⟨h, 100, l⟩).b = max_chroma_for_lh l h := by
  rw [hsluv2lch_chroma_formula h s₁ l hl₀ hl₁, hsluv2lch_chroma_formula h s₂ l hl₀ hl₁,
    hsluv2lch_chroma_formula h 100 l hl₀ hl₁]
  have hM : 0 ≤ max_chroma_for_lh l h := max_chroma_nonneg l h
  refine ⟨⟨?_, ?_⟩, ?_⟩
  · exact mul_le_mul_of_nonneg_left hs (by positivity)
  · intro hMpos hlt
    exact mul_lt_mul_of_pos_left hlt (by positivity)
  · field_simp

theorem hsluv2lch_chroma_monotone_witness :
    ((0.00000001:ℝ) < 50 ∧ (50:ℝ) < 99.9999999 ∧ (0:ℝ) ≤ 20 ∧ (20:ℝ) ≤ 80 ∧ (80:ℝ) ≤ 100) ∧
      ((hsluv2lch ⟨10, 20, 50⟩).b ≤ (hsluv2lch ⟨10, 80, 50⟩).b ∧
          (0 < max_chroma_for_lh 50 10 → (20:ℝ) < 80 →
            (hsluv2lch ⟨10, 20, 50⟩).b < (hsluv2lch ⟨10, 80, 50⟩).b)) ∧
        (hsluv2lch ⟨10, 100, 50⟩).b = max_chroma_for_lh 50 10 :=
  ⟨by norm_num,
    hsluv2lch_chroma_monotone 10 50 20 80 (by norm_num) (by norm_num) (by norm_num)
      (by norm_num) (by norm_num)⟩

/-! ### Claim C9 -/

/-- C9: `luv2xyz` returns exactly `(0,0,0)` whenever its input lightness is
`≤ 1e-8`, and `xyz2luv` forces `u = v = 0` whenever the computed lightness
`y2l y` is `< 1e-8`: the divisions by `L` (and the chromaticity ratios at
black) never influence the output at a near-zero lightness. -/
theorem black_threshold_guards (l u v x y z : ℝ) :
    (l ≤ 0.00000001 → luv2xyz ⟨l, u, v⟩ = ⟨0, 0, 0⟩) ∧
      (y2l y < 0.00000001 →
        (xyz2luv ⟨x, y, z⟩).a = y2l y ∧
          (xyz2luv ⟨x, y, z⟩).b = 0 ∧ (xyz2luv ⟨x, y, z⟩).c = 0) := by
  constructor
  · intro hl
    unfold luv2xyz
    simp only
    rw [if_pos hl]
  · intro hy
    unfold xyz2luv
    simp only
    rw [if_pos hy]
    exact ⟨rfl, rfl, rfl⟩

theorem black_threshold_guards_witness :
    ((0:ℝ) ≤ 0.00000001 ∧ y2l 0 < 0.00000001) ∧
      luv2xyz ⟨0, 3, 4⟩ = ⟨0, 0, 0⟩ ∧ (xyz2luv ⟨7, 0, 9⟩).b = 0 := by
  have h1 : (0:ℝ) ≤ 0.00000001 := by norm_num
  have h2 : y2l 0 < 0.00000001 := by
    unfold y2l
    rw [if_pos (by norm_num [epsilon] : (0:ℝ) ≤ epsilon)]
    norm_num
  exact ⟨⟨h1, h2⟩, (black_threshold_guards 0 3 4 7 0 9).1 h1,
    ((black_threshold_guards 0 3 4 7 0 9).2 h2).2.1⟩

/-! ### Claim C10 -/

/-- C10: the running minimum of both gamut loops is initialized to `FLT_MAX`,
so whenever no per-segment value passes the `>= 0 && < min_len` guard (in
particular when none is non-negative), `max_chroma_for_lh` returns the
sentinel `FLT_MAX`; `max_safe_chroma_for_l` has the same fallback. -/
theorem sentinel_fallback (l h : ℝ) :
    ((∀ i : Fin 6,
        ¬(0 ≤ ray_length_until_intersect (h / 360 * pi * 2) (get_bounds l i) ∧
            ray_length_until_intersect (h / 360 * pi * 2) (get_bounds l i) < FLT_MAX)) →
      max_chroma_for_lh l h = FLT_MAX) ∧
      ((∀ i : Fin 6, ¬(0 ≤ safe_distance l i ∧ safe_distance l i < FLT_MAX)) →
        max_safe_chroma_for_l l = FLT_MAX) := by
  constructor
  · intro hall
    rw [max_chroma_foldl]
    exact guard_foldl_eq_init_of_none _ _ _ (fun i _ => hall i)
  · intro hall
    rw [max_safe_foldl]
    exact guard_foldl_eq_init_of_none _ _ _ (fun i _ => hall i)

theorem sentinel_fallback_witness :
    max_chroma_for_lh ((10:ℝ) ^ (40:ℕ)) 0 = FLT_MAX ∧
      max_safe_chroma_for_l ((10:ℝ) ^ (40:ℕ)) = FLT_MAX := by
  have hs : sub2 ((10:ℝ) ^ (40:ℕ)) = ((10:ℝ) ^ (40:ℕ) + 16) ^ (3:ℕ) / 1560896 :=
    sub2_high _ (by norm_num [epsilon])
  have hray : ∀ i : Fin 6,
      ¬(0 ≤ ray_length_until_intersect ((0:ℝ) / 360 * pi * 2) (get_bounds ((10:ℝ) ^ (40:ℕ)) i) ∧
          ray_length_until_intersect ((0:ℝ) / 360 * pi * 2) (get_bounds ((10:ℝ) ^ (40:ℕ)) i) <
            FLT_MAX) := by
    intro i
    fin_cases i <;>
      · rintro ⟨hge, hlt⟩
        rw [ray_length_until_intersect] at hge hlt
        simp only [get_bounds, hs, m, mRow0, mRow1, mRow2] at hge hlt
        norm_num [FLT_MAX, Real.sin_zero, Real.cos_zero] at hge hlt
  have hdist : ∀ i : Fin 6,
      ¬(0 ≤ safe_distance ((10:ℝ) ^ (40:ℕ)) i ∧
          safe_distance ((10:ℝ) ^ (40:ℕ)) i < FLT_MAX) := by
    intro i
    rintro ⟨_, hlt⟩
    apply absurd hlt
    rw [not_lt]
    unfold safe_distance intersect_line_line dist_from_pole
    fin_cases i <;>
      · simp only [get_bounds, hs, m, mRow0, mRow1, mRow2]
        rw [Real.le_sqrt' (by norm_num [FLT_MAX])]
        norm_num [FLT_MAX]
  exact ⟨(sentinel_fallback ((10:ℝ) ^ (40:ℕ)) 0).1 hray,
    (sentinel_fallback ((10:ℝ) ^ (40:ℕ))) 0 |>.2 hdist⟩

/-! ### Black and white pipeline evaluation -/

theorem m_zero : m 0 = mRow0 := rfl

theorem m_one : m 1 = mRow1 := rfl

theorem m_two : m 2 = mRow2 := rfl

theorem from_linear_zero : from_linear 0 = 0 := by
  unfold from_linear
  rw [if_pos (by norm_num : (0:ℝ) ≤ 0.0031308)]
  norm_num

theorem to_linear_zero : to_linear 0 = 0 := by
  unfold to_linear
  rw [if_neg (by norm_num : ¬ (0:ℝ) > 0.04045)]
  norm_num

theorem to_linear_one : to_linear 1 = 1 := by
  unfold to_linear
  rw [if_pos (by norm_num : (1:ℝ) > 0.04045)]
  rw [div_self (by norm_num : (1:ℝ) + 0.055 ≠ 0), Real.one_rpow]

theorem xyz2rgb_zero : xyz2rgb ⟨0, 0, 0⟩ = ⟨0, 0, 0⟩ := by
  unfold xyz2rgb
  simp only [dot_product, mul_zero, add_zero, from_linear_zero]

theorem rgb2xyz_zero : rgb2xyz ⟨0, 0, 0⟩ = ⟨0, 0, 0⟩ := by
  unfold rgb2xyz
  simp only [to_linear_zero, dot_product, mul_zero, add_zero]

theorem y2l_zero : y2l 0 = 0 := by
  unfold y2l
  rw [if_pos (by norm_num [epsilon] : (0:ℝ) ≤ epsilon)]
  norm_num

theorem luv2xyz_black (t : Triplet) (h : t.a ≤ 0.00000001) : luv2xyz t = ⟨0, 0, 0⟩ := by
  unfold luv2xyz
  rw [if_pos h]

theorem xyz2luv_zero : xyz2luv ⟨0, 0, 0⟩ = ⟨0, 0, 0⟩ := by
  unfold xyz2luv
  simp only
  rw [if_pos (by rw [y2l_zero]; norm_num), y2l_zero]

theorem luv2lch_zero : luv2lch ⟨0, 0, 0⟩ = ⟨0, 0, 0⟩ := by
  unfold luv2lch
  simp only
  rw [if_pos (by norm_num : Real.sqrt ((0:ℝ) ^ (2:ℕ) + (0:ℝ) ^ (2:ℕ)) < 0.00000001)]
  norm_num

theorem lch2hsluv_zero : lch2hsluv ⟨0, 0, 0⟩ = ⟨0, 0, 0⟩ := by
  unfold lch2hsluv
  simp only
  rw [if_pos (Or.inr (by norm_num : (0:ℝ) < 0.00000001)),
    if_pos (by norm_num : (0:ℝ) < 0.00000001)]

theorem lch2hpluv_zero : lch2hpluv ⟨0, 0, 0⟩ = ⟨0, 0, 0⟩ := by
  unfold lch2hpluv
  simp only
  rw [if_pos (Or.inr (by norm_num : (0:ℝ) < 0.00000001)),
    if_pos (by norm_num : (0:ℝ) < 0.00000001)]

theorem rgb2hsluv_black : rgb2hsluv 0 0 0 = ⟨0, 0, 0⟩ := by
  unfold rgb2hsluv
  rw [rgb2xyz_zero, xyz2luv_zero, luv2lch_zero, lch2hsluv_zero]

theorem rgb2hpluv_black : rgb2hpluv 0 0 0 = ⟨0, 0, 0⟩ := by
  unfold rgb2hpluv
  rw [rgb2xyz_zero, xyz2luv_zero, luv2lch_zero, lch2hpluv_zero]

theorem hsluv2rgb_black (h s l : ℝ) (hl : l < 0.00000001) :
    hsluv2rgb h s l = ⟨0, 0, 0⟩ := by
  unfold hsluv2rgb hsluv2lch
  simp only
  rw [if_pos (Or.inr hl)]
  unfold lch2luv
  simp only [mul_zero]
  rw [luv2xyz_black _ (le_of_lt hl)]
  exact xyz2rgb_zero

theorem hpluv2rgb_black (h s l : ℝ) (hl : l < 0.00000001) :
    hpluv2rgb h s l = ⟨0, 0, 0⟩ := by
  unfold hpluv2rgb hpluv2lch
  simp only
  rw [if_pos (Or.inr hl)]
  unfold lch2luv
  simp only [mul_zero]
  rw [luv2xyz_black _ (le_of_lt hl)]
  exact xyz2rgb_zero

theorem hsluv2rgb_white_reduce (h s l : ℝ) (hl : 99.9999999 < l) :
    hsluv2rgb h s l = xyz2rgb (luv2xyz ⟨l, 0, 0⟩) := by
  unfold hsluv2rgb hsluv2lch
  simp only
  rw [if_pos (Or.inl hl)]
  unfold lch2luv
  simp only [mul_zero]

theorem hpluv2rgb_white_reduce (h s l : ℝ) (hl : 99.9999999 < l) :
    hpluv2rgb h s l = xyz2rgb (luv2xyz ⟨l, 0, 0⟩) := by
  unfold hpluv2rgb hpluv2lch
  simp only
  rw [if_pos (Or.inl hl)]
  unfold lch2luv
  simp only [mul_zero]

theorem luv2xyz_gray (l : ℝ) (hl : ¬ l ≤ 0.00000001) :
    luv2xyz ⟨l, 0, 0⟩ =
      ⟨-(9 * l2y l * ref_u) / ((ref_u - 4) * ref_v - ref_u * ref_v), l2y l,
        (9 * l2y l - 15 * ref_v * l2y l -
            ref_v * (-(9 * l2y l * ref_u) / ((ref_u - 4) * ref_v - ref_u * ref_v))) /
          (3 * ref_v)⟩ := by
  unfold luv2xyz
  simp only
  rw [if_neg hl]
  simp only [zero_div, zero_add]

theorem l2y_100 : l2y 100 = 1 := by
  unfold l2y
  rw [if_neg (by norm_num : ¬ (100:ℝ) ≤ 8)]
  norm_num

/-- Evaluation of `from_linear` just above 1. -/
theorem from_linear_near_one (q : ℝ) (h1 : 1 ≤ q) (h2 : q ≤ 1 + 1e-10) :
    1 ≤ from_linear q ∧ from_linear q ≤ 1 + 1e-9 ∧ (1 < q → 1 < from_linear q) := by
  unfold from_linear
  rw [if_neg (by push_neg; linarith : ¬ q ≤ 0.0031308)]
  have hq0 : (0:ℝ) < q := by linarith
  have hr1 : 1 ≤ q ^ ((1:ℝ) / 2.4) := by
    calc (1:ℝ) = (1:ℝ) ^ ((1:ℝ) / 2.4) := (Real.one_rpow _).symm
    _ ≤ q ^ ((1:ℝ) / 2.4) := Real.rpow_le_rpow zero_le_one h1 (by norm_num)
  have hr2 : q ^ ((1:ℝ) / 2.4) ≤ q := by
    calc q ^ ((1:ℝ) / 2.4) ≤ q ^ (1:ℝ) := Real.rpow_le_rpow_of_exponent_le h1 (by norm_num)
    _ = q := Real.rpow_one q
  refine ⟨by nlinarith, by nlinarith, ?_⟩
  intro hq
  have hgt : 1 < q ^ ((1:ℝ) / 2.4) :=
    (Real.one_lt_rpow_iff_of_pos hq0).mpr (Or.inl ⟨hq, by norm_num⟩)
  nlinarith

theorem from_linear_abs (q : ℝ) (h1 : 1 ≤ q) (h2 : q ≤ 1 + 1e-10) :
    |from_linear q - 1| ≤ 1e-9 := by
  obtain ⟨hl, hu, _⟩ := from_linear_near_one q h1 h2
  rw [abs_le]
  constructor <;> linarith

theorem m_inv_zero : m_inv 0 = mInvRow0 := rfl

theorem m_inv_one : m_inv 1 = mInvRow1 := rfl

theorem m_inv_two : m_inv 2 = mInvRow2 := rfl

theorem xyz2luv_a (t : Triplet) : (xyz2luv t).a = y2l t.b := by
  unfold xyz2luv
  simp only
  split <;> rfl

theorem luv2lch_a (t : Triplet) : (luv2lch t).a = t.a := by
  unfold luv2lch
  simp only
  split <;> rfl

theorem lch2hsluv_c (t : Triplet) : (lch2hsluv t).c = t.a := rfl

theorem lch2hpluv_c (t : Triplet) : (lch2hpluv t).c = t.a := rfl

theorem lch2hsluv_white_b (t : Triplet) (hw : 99.9999999 < t.a) : (lch2hsluv t).b = 0 := by
  unfold lch2hsluv
  simp only
  rw [if_pos (Or.inl hw)]

theorem lch2hpluv_white_b (t : Triplet) (hw : 99.9999999 < t.a) : (lch2hpluv t).b = 0 := by
  unfold lch2hpluv
  simp only
  rw [if_pos (Or.inl hw)]

/-- `rgb2xyz` at pure white, evaluated exactly: the Y row sums to
`1.000000000000000005`, not to 1. -/
theorem rgb2xyz_one :
    rgb2xyz ⟨1, 1, 1⟩ =
      ⟨0.95045592705167173, 1.000000000000000005, 1.089057750759878421⟩ := by
  unfold rgb2xyz
  simp only [to_linear_one]
  norm_num [dot_product, m_inv_zero, m_inv_one, m_inv_two, mInvRow0, mInvRow1, mInvRow2]

theorem y2l_white_gt : (99.9999999:ℝ) < y2l 1.000000000000000005 := by
  unfold y2l
  rw [if_neg (by norm_num [epsilon] : ¬ (1.000000000000000005:ℝ) ≤ epsilon)]
  have h1 : (1:ℝ) ≤ (1.000000000000000005 : ℝ) ^ ((1:ℝ)/3) := by
    calc (1:ℝ) = (1:ℝ) ^ ((1:ℝ)/3) := (Real.one_rpow _).symm
    _ ≤ _ := Real.rpow_le_rpow zero_le_one (by norm_num) (by norm_num)
  nlinarith

theorem l2y_y2l (y : ℝ) (h1 : 1 ≤ y) : l2y (y2l y) = y := by
  have hq : 1 ≤ y ^ ((1:ℝ)/3) := by
    calc (1:ℝ) = (1:ℝ) ^ ((1:ℝ)/3) := (Real.one_rpow _).symm
    _ ≤ _ := Real.rpow_le_rpow zero_le_one h1 (by norm_num)
  unfold y2l
  rw [if_neg (not_le.mpr (lt_of_lt_of_le (by norm_num [epsilon] : epsilon < 1) h1))]
  unfold l2y
  rw [if_neg (by push_neg; nlinarith : ¬ 116 * y ^ ((1:ℝ)/3) - 16 ≤ 8)]
  have he : (116 * y ^ ((1:ℝ)/3) - 16 + 16) / 116 = y ^ ((1:ℝ)/3) := by ring
  rw [he, ← Real.rpow_natCast (y ^ ((1:ℝ)/3)) 3, ← Real.rpow_mul (by linarith : (0:ℝ) ≤ y)]
  norm_num

/-- Channel values of the pipeline tail at `l = 100`: every channel exceeds 1
but stays within `1e-9` of it. -/
theorem white100_bounds :
    1 < (xyz2rgb (luv2xyz ⟨(100:ℝ), 0, 0⟩)).a ∧
      (|(xyz2rgb (luv2xyz ⟨(100:ℝ), 0, 0⟩)).a - 1| ≤ 1e-9 ∧
        |(xyz2rgb (luv2xyz ⟨(100:ℝ), 0, 0⟩)).b - 1| ≤ 1e-9 ∧
        |(xyz2rgb (luv2xyz ⟨(100:ℝ), 0, 0⟩)).c - 1| ≤ 1e-9) := by
  rw [luv2xyz_gray 100 (by norm_num), l2y_100]
  unfold xyz2rgb
  simp only [m_zero, m_one, m_two]
  refine ⟨(from_linear_near_one _ ?_ ?_).2.2 ?_, from_linear_abs _ ?_ ?_,
      from_linear_abs _ ?_ ?_, from_linear_abs _ ?_ ?_⟩ <;>
    norm_num [dot_product, mRow0, mRow1, mRow2, ref_u, ref_v]

/-- Channel values of the pipeline tail at the lightness produced by
`rgb2hsluv 1 1 1`, namely `y2l 1.000000000000000005`. -/
theorem whiteY0_bounds :
    1 < (xyz2rgb (luv2xyz ⟨y2l (1.000000000000000005:ℝ), 0, 0⟩)).a ∧
      (|(xyz2rgb (luv2xyz ⟨y2l (1.000000000000000005:ℝ), 0, 0⟩)).a - 1| ≤ 1e-9 ∧
        |(xyz2rgb (luv2xyz ⟨y2l (1.000000000000000005:ℝ), 0, 0⟩)).b - 1| ≤ 1e-9 ∧
        |(xyz2rgb (luv2xyz ⟨y2l (1.000000000000000005:ℝ), 0, 0⟩)).c - 1| ≤ 1e-9) := by
  rw [luv2xyz_gray _ (by push_neg; linarith [y2l_white_gt] :
      ¬ y2l (1.000000000000000005:ℝ) ≤ 0.00000001),
    l2y_y2l _ (by norm_num : (1:ℝ) ≤ 1.000000000000000005)]
  unfold xyz2rgb
  simp only [m_zero, m_one, m_two]
  refine ⟨(from_linear_near_one _ ?_ ?_).2.2 ?_, from_linear_abs _ ?_ ?_,
      from_linear_abs _ ?_ ?_, from_linear_abs _ ?_ ?_⟩ <;>
    norm_num [dot_product, mRow0, mRow1, mRow2, ref_u, ref_v]

/-! ### Claim C3 -/

/-- C3 (counterexample to exactness at white): in exact arithmetic,
`hsluv2rgb (0, 0, 100)` is not exactly `(1, 1, 1)` — the red channel strictly
exceeds 1 (by about `2e-17`), because the rounded matrix and white-point
constants make the white-point dot products slightly larger than 1. -/
theorem hsluv2rgb_white_not_exact : hsluv2rgb 0 0 100 ≠ Triplet.mk 1 1 1 := by
  rw [hsluv2rgb_white_reduce 0 0 100 (by norm_num)]
  intro heq
  have ha := congrArg Triplet.a heq
  have h1 := white100_bounds.1
  rw [ha] at h1
  exact lt_irrefl 1 h1

/-- C3 (amended): for every `h` and `s`, `hsluv2rgb (h, s, 0)` and
`hpluv2rgb (h, s, 0)` are exactly RGB `(0,0,0)`, and `hsluv2rgb (h, s, 100)`
and `hpluv2rgb (h, s, 100)` have every channel within `1e-9` of 1 (though not
exactly 1). -/
theorem endpoints_black_white (h s : ℝ) :
    (hsluv2rgb h s 0 = ⟨0, 0, 0⟩ ∧ hpluv2rgb h s 0 = ⟨0, 0, 0⟩) ∧
      (|(hsluv2rgb h s 100).a - 1| ≤ 1e-9 ∧ |(hsluv2rgb h s 100).b - 1| ≤ 1e-9 ∧
        |(hsluv2rgb h s 100).c - 1| ≤ 1e-9) ∧
      (|(hpluv2rgb h s 100).a - 1| ≤ 1e-9 ∧ |(hpluv2rgb h s 100).b - 1| ≤ 1e-9 ∧
        |(hpluv2rgb h s 100).c - 1| ≤ 1e-9) := by
  refine ⟨⟨hsluv2rgb_black h s 0 (by norm_num), hpluv2rgb_black h s 0 (by norm_num)⟩, ?_, ?_⟩
  · rw [hsluv2rgb_white_reduce h s 100 (by norm_num)]
    exact white100_bounds.2
  · rw [hpluv2rgb_white_reduce h s 100 (by norm_num)]
    exact white100_bounds.2

/-! ### Claim C1 -/

theorem rgb2hsluv_white_b : (rgb2hsluv 1 1 1).b = 0 := by
  unfold rgb2hsluv
  rw [rgb2xyz_one]
  apply lch2hsluv_white_b
  rw [luv2lch_a, xyz2luv_a]
  exact y2l_white_gt

theorem rgb2hsluv_white_c : (rgb2hsluv 1 1 1).c = y2l 1.000000000000000005 := by
  unfold rgb2hsluv
  rw [rgb2xyz_one, lch2hsluv_c, luv2lch_a, xyz2luv_a]

theorem rgb2hpluv_white_b : (rgb2hpluv 1 1 1).b = 0 := by
  unfold rgb2hpluv
  rw [rgb2xyz_one]
  apply lch2hpluv_white_b
  rw [luv2lch_a, xyz2luv_a]
  exact y2l_white_gt

theorem rgb2hpluv_white_c : (rgb2hpluv 1 1 1).c = y2l 1.000000000000000005 := by
  unfold rgb2hpluv
  rw [rgb2xyz_one, lch2hpluv_c, luv2lch_a, xyz2luv_a]

/-- C1 (counterexample to exactness at white): the round trip
`hsluv2rgb ∘ rgb2hsluv` does not reproduce pure white `(1,1,1)` exactly in
exact real arithmetic — the red channel comes back strictly greater than 1. -/
theorem round_trip_white_not_exact :
    hsluv2rgb (rgb2hsluv 1 1 1).a (rgb2hsluv 1 1 1).b (rgb2hsluv 1 1 1).c ≠
      Triplet.mk 1 1 1 := by
  rw [rgb2hsluv_white_b, rgb2hsluv_white_c, hsluv2rgb_white_reduce _ _ _ y2l_white_gt]
  intro heq
  have ha := congrArg Triplet.a heq
  have h1 := whiteY0_bounds.1
  rw [ha] at h1
  exact lt_irrefl 1 h1

/-- C1 (amended): at the two singular points, the round trips behave as
follows: pure black `(0,0,0)` is reproduced exactly by both
`hsluv2rgb ∘ rgb2hsluv` and `hpluv2rgb ∘ rgb2hpluv`; pure white `(1,1,1)` is
reproduced to within `1e-9` per channel (but not exactly) by both. -/
theorem round_trip_singularities :
    (hsluv2rgb (rgb2hsluv 0 0 0).a (rgb2hsluv 0 0 0).b (rgb2hsluv 0 0 0).c = ⟨0, 0, 0⟩ ∧
      hpluv2rgb (rgb2hpluv 0 0 0).a (rgb2hpluv 0 0 0).b (rgb2hpluv 0 0 0).c = ⟨0, 0, 0⟩) ∧
      (|(hsluv2rgb (rgb2hsluv 1 1 1).a (rgb2hsluv 1 1 1).b (rgb2hsluv 1 1 1).c).a - 1| ≤ 1e-9 ∧
        |(hsluv2rgb (rgb2hsluv 1 1 1).a (rgb2hsluv 1 1 1).b (rgb2hsluv 1 1 1).c).b - 1| ≤ 1e-9 ∧
        |(hsluv2rgb (rgb2hsluv 1 1 1).a (rgb2hsluv 1 1 1).b (rgb2hsluv 1 1 1).c).c - 1| ≤ 1e-9) ∧
      (|(hpluv2rgb (rgb2hpluv 1 1 1).a (rgb2hpluv 1 1 1).b (rgb2hpluv 1 1 1).c).a - 1| ≤ 1e-9 ∧
        |(hpluv2rgb (rgb2hpluv 1 1 1).a (rgb2hpluv 1 1 1).b (rgb2hpluv 1 1 1).c).b - 1| ≤ 1e-9 ∧
        |(hpluv2rgb (rgb2hpluv 1 1 1).a (rgb2hpluv 1 1 1).b (rgb2hpluv 1 1 1).c).c - 1| ≤ 1e-9) := by
  refine ⟨⟨?_, ?_⟩, ?_, ?_⟩
  · rw [rgb2hsluv_black]
    exact hsluv2rgb_black _ _ _ (by norm_num)
  · rw [rgb2hpluv_black]
    exact hpluv2rgb_black _ _ _ (by norm_num)
  · rw [rgb2hsluv_white_b, rgb2hsluv_white_c, hsluv2rgb_white_reduce _ _ _ y2l_white_gt]
    exact whiteY0_bounds.2
  · rw [rgb2hpluv_white_b, rgb2hpluv_white_c, hpluv2rgb_white_reduce _ _ _ y2l_white_gt]
    exact whiteY0_bounds.2

end HsluvC
